import Mathlib

/-!
# Verification of `.github/scripts/update_orcid.py`

A shallow embedding of the ORCID → README update script.  Python strings are
modelled as Lean `String` (for record fields and rendering) and as `List Char`
(for the README splicing, where positional reasoning is needed).  Python
`None` is modelled with `Option`; dictionaries returned by the ORCID API are
modelled as structures whose optional fields are `Option`-valued, with an
absent key and a present-but-falsy value collapsed to `none` whenever the two
lead to the same observable outcome of the script (noted at each field).

The script performs no concurrent access: the target file is read, the new
text computed in memory, and the file written at most once; file contents are
therefore modelled as plain values and the write as the `written` outcome.
-/

/-! ## Python primitives -/

/-- Python `str.lower()` restricted to ASCII letters; the accepted work-type
strings are all ASCII, and for non-ASCII input both Python and this model
produce a string outside the accepted set, so acceptance decisions agree. -/
def pyLower (s : String) : String :=
  ⟨s.data.map Char.toLower⟩

/-- ASCII whitespace as stripped by Python `str.strip()` (the Unicode
whitespace extras do not occur in the strings any claim is about). -/
def isPySpace (c : Char) : Bool :=
  c = ' ' || c = '\t' || c = '\n' || c = '\r' || c = Char.ofNat 11 || c = Char.ofNat 12

/-- Python `str.strip()`: drop leading and trailing whitespace. -/
def pyStrip (s : String) : String :=
  ⟨((s.data.dropWhile isPySpace).reverse.dropWhile isPySpace).reverse⟩

/-- Digit-run parser for Python `int(str)`: a run of ASCII digits in which a
single underscore may stand between two digits.  `acc` is the value of the
digits already read. -/
def pyDigitsAux (acc : Nat) : List Char → Option Nat
  | [] => some acc
  | '_' :: c :: cs =>
      if c.isDigit then pyDigitsAux (acc * 10 + (c.toNat - 48)) cs else none
  | '_' :: [] => none
  | c :: cs =>
      if c.isDigit then pyDigitsAux (acc * 10 + (c.toNat - 48)) cs else none

/-- Digit run with the Python underscore rule; must start with a digit. -/
def pyDigits : List Char → Option Nat
  | [] => none
  | c :: cs => if c.isDigit then pyDigitsAux (c.toNat - 48) cs else none

/-- Python `int(s)` on a string: optional surrounding whitespace, optional
sign, then a digit run (ASCII digits; Unicode digits do not occur in the
inputs any claim is about).  `none` models the `ValueError` that the script
catches. -/
def pyInt? (s : String) : Option Int :=
  match (pyStrip s).data with
  | '+' :: rest => (pyDigits rest).map (fun n => (n : Int))
  | '-' :: rest => (pyDigits rest).map (fun n => -(n : Int))
  | rest => (pyDigits rest).map (fun n => (n : Int))

/-! ## Data model of the ORCID API payload -/

/-- A `{"value": ...}` object; `none` for an absent or `None` value. -/
structure ValueObj where
  value : Option String
deriving DecidableEq

/-- The `title` object of a work: `{"title": {"value": ...}}`.  `none` for
`title.title` covers both an absent key and a falsy (empty-dict) value; a
present `{"value": None}` inner object makes the script fail with an
`AttributeError` that is caught and also yields no record, so it is likewise
observationally covered by rejection paths below. -/
structure TitleObj where
  title : Option ValueObj
deriving DecidableEq

/-- The `publication-date` object: `{"year": {"value": ...}}`; `none` for
`year` covers an absent key and a falsy value (both leave the year unset). -/
structure DateObj where
  year : Option ValueObj
deriving DecidableEq

/-- One entry of `external-ids.external-id`. -/
structure ExtId where
  idType : Option String
  idValue : Option String
deriving DecidableEq

/-- One work summary as consumed by `extract_publication_info`.
`externalIds` is `work.get("external-ids", {}).get("external-id", [])`
with the missing-key default already applied. -/
structure Work where
  workType : Option String
  title : Option TitleObj
  pubDate : Option DateObj
  externalIds : List ExtId
deriving DecidableEq

/-- The record built at the end of `extract_publication_info`.  The Python
dict always carries all four keys (`year` and `doi` possibly `None`). -/
structure WorkRec where
  title : String
  year : Option Int
  doi : Option String
  workType : String
deriving DecidableEq, Repr

/-- One element of the top-level `group` list. -/
structure WorkGroup where
  workSummary : List Work
deriving DecidableEq

/-- The whole works payload: `works_data.get("group", [])` already applied. -/
structure WorksData where
  group : List WorkGroup
deriving DecidableEq

/-! ## Configuration constants -/

def PUBLICATION_TYPES : List String := ["journal-article", "conference-paper"]

def SOFTWARE_TYPES : List String := ["software", "research-tool"]

def ACCEPTED_TYPES : List String := PUBLICATION_TYPES ++ SOFTWARE_TYPES

def PUBLICATIONS_START_MARKER : List Char := "<!-- ORCID-PUBLICATIONS:START -->".data

def PUBLICATIONS_END_MARKER : List Char := "<!-- ORCID-PUBLICATIONS:END -->".data

def SOFTWARE_START_MARKER : List Char := "<!-- ORCID-SOFTWARE:START -->".data

def SOFTWARE_END_MARKER : List Char := "<!-- ORCID-SOFTWARE:END -->".data

/-! ## Extractor -/

/-- The DOI scan of `extract_publication_info`: iterate the external ids;
on an entry whose `external-id-type` equals `"doi"`, assign its value to
`doi` (even when falsy) and stop only if the value is truthy.  `cur` is the
current value of the Python `doi` variable. -/
def scanDoi (cur : Option String) : List ExtId → Option String
  | [] => cur
  | e :: rest =>
      if e.idType = some "doi" then
        match e.idValue with
        | some v => if v = "" then scanDoi (some "") rest else some v
        | none => scanDoi none rest
      else scanDoi cur rest

/-- The year parse of `extract_publication_info`: a falsy
`publication-date`, `year` object or `value` leaves the year unset, and an
`int()` failure is swallowed (`except ... : pass`). -/
def parseYear (pubDate : Option DateObj) : Option Int :=
  match pubDate with
  | none => none
  | some pd =>
      match pd.year with
      | none => none
      | some yv =>
          match yv.value with
          | none => none
          | some s => if s = "" then none else pyInt? s

/-- `extract_publication_info`: reject on missing/unaccepted type (the check
lowercases the type but the record keeps the original string) or on a
missing/empty stripped title; the year and DOI are best-effort. -/
def extract_publication_info (w : Work) : Option WorkRec :=
  match w.workType with
  | none => none
  | some t =>
      if t = "" then none
      else if ¬ (pyLower t ∈ ACCEPTED_TYPES) then none
      else
        match w.title with
        | none => none
        | some tobj =>
            match tobj.title with
            | none => none
            | some vobj =>
                let titleStr := pyStrip (vobj.value.getD "")
                if titleStr = "" then none
                else
                  some { title := titleStr
                         year := parseYear w.pubDate
                         doi := scanDoi none w.externalIds
                         workType := t }

/-! ## Formatter -/

/-- The separator of `format_publication` as it stands in the source file:
the file holds the bytes `E2 80 9A C3 84 C3 AC`, i.e. the three characters
U+201A, U+00C4, U+00EC (a Mac-Roman double encoding of what was presumably
meant to be an en dash). -/
def FORMAT_SEPARATOR : String :=
  ⟨[Char.ofNat 0x201A, Char.ofNat 0xC4, Char.ofNat 0xEC]⟩

/-- The year slot of `format_publication`: `pub.get("year", "N/A")` finds the
key always present (the extractor stores it, possibly as `None`), so a `None`
year is rendered by the f-string as the text `None`, never as `N/A`. -/
def formatYearSlot (year : Option Int) : String :=
  match year with
  | some y => toString y
  | none => "None"

/-- `format_publication`: one Markdown list line per record. -/
def format_publication (pub : WorkRec) : String :=
  match pub.doi with
  | some d =>
      if d = "" then
        "- **" ++ formatYearSlot pub.year ++ "** " ++ FORMAT_SEPARATOR ++ " " ++ pub.title
      else
        "- **" ++ formatYearSlot pub.year ++ "** " ++ FORMAT_SEPARATOR ++ " [" ++ pub.title
          ++ "](https://doi.org/" ++ d ++ ")"
  | none =>
      "- **" ++ formatYearSlot pub.year ++ "** " ++ FORMAT_SEPARATOR ++ " " ++ pub.title

/-! ## Deduplicator -/

/-- The replacement test of `filter_duplicate_publications`: the incoming
record wins exactly when its year is strictly greater, a missing year
counting as lower than any present year. -/
def yearBeats (cur old : Option Int) : Bool :=
  match cur, old with
  | some _, none => true
  | some c, some o => decide (o < c)
  | none, _ => false

/-- Update the insertion-ordered association of records by title: replace the
first record with a matching title in place when the newcomer wins, else
append the newcomer at the end (dict insertion-order semantics). -/
def dedupInsert (pub : WorkRec) : List WorkRec → List WorkRec
  | [] => [pub]
  | q :: rest =>
      if q.title = pub.title then
        (if yearBeats pub.year q.year then pub else q) :: rest
      else
        q :: dedupInsert pub rest

/-- `filter_duplicate_publications`: fold the list through the
insertion-ordered dict keyed on title, skipping falsy (empty) titles. -/
def filter_duplicate_publications (publications : List WorkRec) : List WorkRec :=
  publications.foldl (fun acc pub => if pub.title = "" then acc else dedupInsert pub acc) []

/-- The in-place winner between incumbent `q` and newcomer `p`, the same
decision as `dedupInsert` takes. -/
def pickBetter (q p : WorkRec) : WorkRec :=
  if yearBeats p.year q.year then p else q

/-- Maximum of two optional years, a missing year counting as lower than any
present year, ties keeping the left value. -/
def yMax (a b : Option Int) : Option Int :=
  if yearBeats b a then b else a

/-- Greatest year of a group of records, folded from a seed year. -/
def yearsFoldMax (m0 : Option Int) (g : List WorkRec) : Option Int :=
  g.foldl (fun m q => yMax m q.year) m0

/-- Winner of a whole group folded from a seed record. -/
def bestOf (q : WorkRec) (g : List WorkRec) : WorkRec :=
  g.foldl pickBetter q

/-- Accumulator form of the per-title winner. -/
def mergeBest : Option WorkRec → List WorkRec → Option WorkRec
  | cur, [] => cur
  | none, p :: g => mergeBest (some p) g
  | some q, p :: g => mergeBest (some (pickBetter q p)) g

/-- Specification-side selection: the first record of the group whose year
equals the greatest year of the group (a missing year counting as lower than
any present year); ties therefore keep the first-seen record. -/
def keepBest : List WorkRec → Option WorkRec
  | [] => none
  | r0 :: rest => (r0 :: rest).find? (fun r => r.year == yearsFoldMax r0.year rest)

/-! ## Sorting -/

/-- The sort key `x.get("year") or 0`: both a missing year and a year `0` are
falsy in Python and collapse to `0`. -/
def effYear (r : WorkRec) : Int :=
  match r.year with
  | some y => if y = 0 then 0 else y
  | none => 0

/-- Stable descending insertion by `effYear`: an element already in place
stays before the newcomer when its key is at least as large, which is exactly
the tie behaviour of Python's stable `list.sort(..., reverse=True)`. -/
def insertDescBy (x : WorkRec) : List WorkRec → List WorkRec
  | [] => [x]
  | y :: ys => if effYear x ≤ effYear y then y :: insertDescBy x ys else x :: y :: ys

/-- Python `list.sort(key=lambda x: x.get("year") or 0, reverse=True)`:
a stable sort is uniquely determined by the key order and stability, so the
stable insertion sort below is extensionally the Python sort. -/
def sortByYearDesc (l : List WorkRec) : List WorkRec :=
  l.foldl (fun acc x => insertDescBy x acc) []

/-! ## Markdown generation -/

/-- The `publications` group predicate of `generate_publications_markdown`
(case-sensitive membership of the stored type string). -/
def isPublicationType (r : WorkRec) : Bool :=
  decide (r.workType ∈ PUBLICATION_TYPES)

/-- The `software` group predicate. -/
def isSoftwareType (r : WorkRec) : Bool :=
  decide (r.workType ∈ SOFTWARE_TYPES)

/-- The flattening and extraction loop of `generate_publications_markdown`. -/
def allWorks (wd : WorksData) : List WorkRec :=
  ((wd.group.map (fun g => g.workSummary)).flatten).filterMap extract_publication_info

/-- All works after deduplication. -/
def dedupedWorks (wd : WorksData) : List WorkRec :=
  filter_duplicate_publications (allWorks wd)

/-- The sorted publications group. -/
def publicationsOf (wd : WorksData) : List WorkRec :=
  sortByYearDesc ((dedupedWorks wd).filter isPublicationType)

/-- The sorted software group. -/
def softwareOf (wd : WorksData) : List WorkRec :=
  sortByYearDesc ((dedupedWorks wd).filter isSoftwareType)

/-- The publications heading as it stands in the source file: the bytes
`EF A3 BF C3 BC C3 AC C3 B6` (U+F8FF, U+00FC, U+00EC, U+00F6), a Mac-Roman
double encoding of an emoji, followed by a space and the word. -/
def PUB_HEADING : String :=
  ⟨[Char.ofNat 0xF8FF, Char.ofNat 0xFC, Char.ofNat 0xEC, Char.ofNat 0xF6]⟩ ++ " Publications"

/-- The software heading (bytes `EF A3 BF C3 BC C3 AD C2 AA` and text). -/
def SOFT_HEADING : String :=
  ⟨[Char.ofNat 0xF8FF, Char.ofNat 0xFC, Char.ofNat 0xED, Char.ofNat 0xAA]⟩ ++ " Software & Tools"

/-- Render one section: heading line, blank line, then either the formatted
records or the placeholder, joined by newlines. -/
def renderSection (heading placeholder : String) (recs : List WorkRec) : String :=
  String.intercalate "\n"
    ([heading, ""] ++ (if recs.isEmpty then [placeholder] else recs.map format_publication))

/-- `generate_publications_markdown`: the pair of rendered section bodies. -/
def generate_publications_markdown (wd : WorksData) : String × String :=
  (renderSection PUB_HEADING "*No publications found*" (publicationsOf wd),
   renderSection SOFT_HEADING "*No software found*" (softwareOf wd))

/-! ## README splicer

`update_readme` builds the regular expression
`re.escape(START) + ".*?" + re.escape(END)` with `re.DOTALL` and calls
`pattern.sub(section, content)` with no count, which replaces, scanning left
to right, **every** non-overlapping leftmost match.  For this pattern a match
is: an occurrence of the literal `START`, extended to the first occurrence of
the literal `END` beginning at or after the end of that `START` (lazy `.*?`).
If the first `START` occurrence has no later `END`, no later one has either,
so there is no match at all.  The replacement text of this script never
contains a backslash-group construct, so `sub` inserts it literally, as the
model does. -/

/-- Split `s` at the first (leftmost) occurrence of `pat`:
`some (pre, post)` with `s = pre ++ pat ++ post`, or `none`. -/
def splitFirst (pat : List Char) : List Char → Option (List Char × List Char)
  | [] => if pat.isPrefixOf ([] : List Char) then some ([], []) else none
  | c :: cs =>
      if pat.isPrefixOf (c :: cs) then some ([], (c :: cs).drop pat.length)
      else
        match splitFirst pat cs with
        | some (pre, post) => some (c :: pre, post)
        | none => none

/-- Python `pat in s` (substring containment), as used by the marker check. -/
def containsSub (pat s : List Char) : Bool :=
  (splitFirst pat s).isSome

/-- Fuel-indexed worker for `reSubAll`: find the leftmost start marker, the
first end marker after it, splice in `R`, and continue after the match.  For
a non-empty `st` every step removes at least one character, so the wrapper's
fuel `s.length` is never exhausted (the `0` branch is unreachable then). -/
def reSubAllFuel (st en R : List Char) : Nat → List Char → List Char
  | 0, s => s
  | fuel + 1, s =>
      match splitFirst st s with
      | none => s
      | some (pre, rest) =>
          match splitFirst en rest with
          | none => s
          | some (_, post) => pre ++ R ++ reSubAllFuel st en R fuel post

/-- `reSubAll st en R s`: the model of `pattern.sub(R, s)` described above. -/
def reSubAll (st en R : List Char) (s : List Char) : List Char :=
  reSubAllFuel st en R s.length s

/-- The replacement section `START + "\n" + content + "\n" + END`. -/
def markerSection (st en content : List Char) : List Char :=
  st ++ '\n' :: content ++ '\n' :: en

/-- The two substitutions of `update_readme`, publications first. -/
def update_sections (publicationsContent softwareContent content : List Char) : List Char :=
  reSubAll SOFTWARE_START_MARKER SOFTWARE_END_MARKER
    (markerSection SOFTWARE_START_MARKER SOFTWARE_END_MARKER softwareContent)
    (reSubAll PUBLICATIONS_START_MARKER PUBLICATIONS_END_MARKER
      (markerSection PUBLICATIONS_START_MARKER PUBLICATIONS_END_MARKER publicationsContent)
      content)

/-- The local `pub_section` of `update_readme`. -/
def pub_section (publicationsContent : List Char) : List Char :=
  markerSection PUBLICATIONS_START_MARKER PUBLICATIONS_END_MARKER publicationsContent

/-- The local `soft_section` of `update_readme`. -/
def soft_section (softwareContent : List Char) : List Char :=
  markerSection SOFTWARE_START_MARKER SOFTWARE_END_MARKER softwareContent

/-- The marker presence check of `update_readme` (all four markers). -/
def hasAllMarkers (content : List Char) : Bool :=
  (containsSub PUBLICATIONS_START_MARKER content &&
   containsSub PUBLICATIONS_END_MARKER content) &&
  (containsSub SOFTWARE_START_MARKER content &&
   containsSub SOFTWARE_END_MARKER content)

/-- Outcome of one `update_readme` call.  `written` is the only outcome in
which the file is opened for writing; every outcome also records the `bool`
the Python function returns (`written` ↦ `True`, all others ↦ `False`). -/
inductive ReadmeResult where
  | missingFile
  | missingMarkers
  | unchanged
  | written (newContent : List Char)
deriving DecidableEq

/-- The boolean `update_readme` returns for each outcome. -/
def ReadmeResult.toBool : ReadmeResult → Bool
  | .written _ => true
  | _ => false

/-- Whether the outcome wrote the file. -/
def ReadmeResult.wrote : ReadmeResult → Bool
  | .written _ => true
  | _ => false

/-- `update_readme`: read the file (a missing file is caught and reported),
require all four markers, substitute both sections, re-read the original and
write only when the new text differs.  The second read sees the same content
(single-process run), and the write succeeds (no claim concerns `IOError`). -/
def update_readme (publicationsContent softwareContent : List Char)
    (file : Option (List Char)) : ReadmeResult :=
  match file with
  | none => .missingFile
  | some content =>
      if ¬ hasAllMarkers content then .missingMarkers
      else
        let newReadme := update_sections publicationsContent softwareContent content
        if newReadme = content then .unchanged else .written newReadme

/-- The script's `main` (the name `main` is reserved in Lean): a fetch or
generation exception exits 1; otherwise the README is updated and **both**
return values of `update_readme` exit 0.  The result is the exit code paired
with the `update_readme` outcome (when reached). -/
def mainRun (fetched : Except String WorksData) (file : Option (List Char)) :
    Nat × Option ReadmeResult :=
  match fetched with
  | .error _ => (1, none)
  | .ok wd =>
      let contents := generate_publications_markdown wd
      let result := update_readme contents.1.data contents.2.data file
      (0, some result)

/-! ## Occurrence predicates

Positional side conditions for the splice lemmas.  An occurrence of `pat`
starting at a position `i < u.length` inside `u ++ pat ++ r` lies entirely
inside `u ++ pat` (its length is `pat.length`), so both predicates below are
independent of whatever follows. -/

/-- `noEarlyOcc pat u`: in `u ++ pat ++ anything`, no occurrence of `pat`
starts strictly before position `u.length`; i.e. the occurrence of `pat` at
position `u.length` is the leftmost one. -/
def noEarlyOcc (pat : List Char) : List Char → Bool
  | [] => true
  | c :: u => !(pat.isPrefixOf ((c :: u) ++ pat)) && noEarlyOcc pat u

/-- `noOcc pat s`: `pat` does not occur in `s` at all. -/
def noOcc (pat : List Char) : List Char → Bool
  | [] => !(pat.isPrefixOf ([] : List Char))
  | c :: s => !(pat.isPrefixOf (c :: s)) && noOcc pat s

/-! ## Concrete example inputs used by witnesses and counterexamples -/

/-- A work whose type is accepted case-insensitively but stored as-is. -/
def exWorkCased : Work :=
  { workType := some "Journal-Article",
    title := some { title := some { value := some "Cased" } },
    pubDate := none, externalIds := [] }

/-- A work with an all-lowercase accepted type. -/
def exWorkLower : Work :=
  { workType := some "software",
    title := some { title := some { value := some "Tool" } },
    pubDate := none, externalIds := [] }

/-- The record extracted from `exWorkLower`. -/
def exRecLower : WorkRec :=
  { title := "Tool", year := none, doi := none, workType := "software" }

/-- A work whose year string parses to a five-digit integer. -/
def exWork99999 : Work :=
  { workType := some "journal-article",
    title := some { title := some { value := some "Big" } },
    pubDate := some { year := some { value := some "99999" } }, externalIds := [] }

/-- A work whose year string does not parse as an integer. -/
def exWorkBadYear : Work :=
  { workType := some "journal-article",
    title := some { title := some { value := some "Odd" } },
    pubDate := some { year := some { value := some "20xx" } }, externalIds := [] }

/-- Duplicate-title record carrying year 2020. -/
def recDup2020 : WorkRec :=
  { title := "Dup", year := some 2020, doi := none, workType := "journal-article" }

/-- Duplicate-title record with no year. -/
def recDupNone : WorkRec :=
  { title := "Dup", year := none, doi := none, workType := "journal-article" }

/-- A dated record with a negative year (sort key −1). -/
def recNeg : WorkRec :=
  { title := "Neg", year := some (-1), doi := none, workType := "journal-article" }

/-- A record with no year (sort key 0). -/
def recNoYr : WorkRec :=
  { title := "NoYear", year := none, doi := none, workType := "journal-article" }

/-- README pieces for the idempotence witness. -/
def ex7x : List Char := "Intro\n".data

def ex7a : List Char := "\nold pubs\n".data

def ex7y : List Char := "\nBetween\n".data

def ex7b : List Char := "\nold soft\n".data

def ex7z : List Char := "\nTail".data

def ex7pc : List Char := "- pub line".data

def ex7sc : List Char := "- soft line".data

/-- The witness README with one publications span and one software span. -/
def ex7content : List Char :=
  ex7x ++ PUBLICATIONS_START_MARKER ++ ex7a ++ PUBLICATIONS_END_MARKER
    ++ ex7y ++ SOFTWARE_START_MARKER ++ ex7b ++ SOFTWARE_END_MARKER ++ ex7z

/-- Publications body for the no-change witness. -/
def ex8pc : List Char := "- p".data

/-- Software body for the no-change witness. -/
def ex8sc : List Char := "- s".data

/-- A README that already carries exactly the spliced sections. -/
def ex8content : List Char :=
  "A\n".data ++ pub_section ex8pc ++ "\nB\n".data ++ soft_section ex8sc ++ "\nC".data

/-! ## Lemmas about `splitFirst` and `reSubAll` -/

/-- If `splitFirst` succeeds the returned pieces reassemble the input. -/
theorem splitFirst_eq_append {pat s pre post : List Char}
    (h : splitFirst pat s = some (pre, post)) : s = pre ++ pat ++ post := by
  induction s generalizing pre post with
  | nil =>
    simp only [splitFirst] at h
    split at h
    · rename_i hp
      have hpat : pat = [] := by
        have := List.isPrefixOf_iff_prefix.mp hp
        simpa using List.prefix_nil.mp this
      cases h
      simp [hpat]
    · cases h
  | cons c cs ih =>
    by_cases hp : pat.isPrefixOf (c :: cs)
    · simp only [splitFirst, hp, if_true] at h
      cases h
      have hpre : pat <+: (c :: cs) := List.isPrefixOf_iff_prefix.mp hp
      obtain ⟨t, ht⟩ := hpre
      have hd : (c :: cs).drop pat.length = t := by
        rw [← ht, List.drop_left]
      rw [hd]
      simp [← ht]
    · simp only [splitFirst, hp, if_false] at h
      cases hrec : splitFirst pat cs with
      | none => rw [hrec] at h; cases h
      | some pr =>
        rw [hrec] at h
        cases pr with
        | mk pre' post' =>
          injection h with h'
          injection h' with h1 h2
          subst h1
          subst h2
          simp [ih hrec]

/-- `splitFirst` on a string beginning with the pattern splits at the front. -/
theorem splitFirst_self_append (pat r : List Char) :
    splitFirst pat (pat ++ r) = some ([], r) := by
  cases pat with
  | nil =>
    cases r with
    | nil => simp [splitFirst, List.isPrefixOf]
    | cons c cs => simp [splitFirst, List.isPrefixOf]
  | cons p ps =>
    have hpre : (p :: ps).isPrefixOf ((p :: ps) ++ r) = true :=
      List.isPrefixOf_iff_prefix.mpr (List.prefix_append _ _)
    have h2 : ((p :: ps) ++ r).drop (p :: ps).length = r := List.drop_left _ _
    simp only [List.cons_append] at hpre h2 ⊢
    simp [splitFirst, hpre, h2]

/-- A prefix no longer than `a` is unaffected by appending `r` to `a`. -/
theorem prefix_append_indep {p a r : List Char} (h : p.length ≤ a.length) :
    p <+: (a ++ r) ↔ p <+: a := by
  rw [List.prefix_iff_eq_take, List.prefix_iff_eq_take,
    List.take_append_of_le_length h]

/-- A non-empty pattern does not occur in the empty string. -/
theorem splitFirst_nil_of_ne {pat : List Char} (h : pat ≠ []) :
    splitFirst pat ([] : List Char) = none := by
  cases pat with
  | nil => exact absurd rfl h
  | cons p ps => simp [splitFirst, List.isPrefixOf]

/-- The leftmost occurrence of the pattern in `u ++ pat ++ r` is at position
`u.length` when `noEarlyOcc pat u` holds. -/
theorem splitFirst_append_marker {pat : List Char} (u r : List Char)
    (h : noEarlyOcc pat u = true) :
    splitFirst pat (u ++ pat ++ r) = some (u, r) := by
  induction u with
  | nil => simpa using splitFirst_self_append pat r
  | cons c u' ih =>
    simp only [noEarlyOcc, Bool.and_eq_true, Bool.not_eq_true'] at h
    obtain ⟨h1, h2⟩ := h
    have hlen : pat.length ≤ ((c :: u') ++ pat).length := by simp; omega
    have h1' : pat.isPrefixOf (((c :: u') ++ pat) ++ r) = false := by
      cases hx : pat.isPrefixOf (((c :: u') ++ pat) ++ r) with
      | false => rfl
      | true =>
        have hpre : pat <+: ((c :: u') ++ pat) :=
          (prefix_append_indep hlen).mp (List.isPrefixOf_iff_prefix.mp hx)
        rw [List.isPrefixOf_iff_prefix.mpr hpre] at h1
        exact h1
    simp only [List.cons_append] at h1'
    show splitFirst pat (c :: ((u' ++ pat) ++ r)) = some (c :: u', r)
    simp only [splitFirst, h1', Bool.false_eq_true, if_false]
    rw [show (u' ++ pat) ++ r = u' ++ pat ++ r by simp]
    rw [ih h2]

/-- `splitFirst` misses when the pattern does not occur. -/
theorem splitFirst_eq_none {pat : List Char} (s : List Char) (h : noOcc pat s = true) :
    splitFirst pat s = none := by
  induction s with
  | nil =>
    simp only [noOcc, Bool.not_eq_true'] at h
    simp [splitFirst, h]
  | cons c cs ih =>
    simp only [noOcc, Bool.and_eq_true, Bool.not_eq_true'] at h
    obtain ⟨h1, h2⟩ := h
    simp [splitFirst, h1, ih h2]

/-- `reSubAllFuel` is the identity when the start marker does not occur. -/
theorem reSubAllFuel_of_none {st en R : List Char} (fuel : Nat) (s : List Char)
    (h : splitFirst st s = none) : reSubAllFuel st en R fuel s = s := by
  cases fuel with
  | zero => rfl
  | succ f => simp [reSubAllFuel, h]

/-- `reSubAllFuel` is the identity when no end marker follows the first
start marker (then no later start marker has one either). -/
theorem reSubAllFuel_of_en_none {st en R : List Char} (fuel : Nat) {s pre rest : List Char}
    (h1 : splitFirst st s = some (pre, rest)) (h2 : splitFirst en rest = none) :
    reSubAllFuel st en R fuel s = s := by
  cases fuel with
  | zero => rfl
  | succ f => simp [reSubAllFuel, h1, h2]

/-- For a non-empty start marker the fuel is irrelevant once it reaches the
length of the string. -/
theorem reSubAllFuel_fuel_irrel {st en R : List Char} (hst : st ≠ []) :
    ∀ (f1 : Nat) (s : List Char) (f2 : Nat), s.length ≤ f1 → s.length ≤ f2 →
      reSubAllFuel st en R f1 s = reSubAllFuel st en R f2 s := by
  intro f1
  induction f1 with
  | zero =>
    intro s f2 hs1 _
    have hsnil : s = [] := List.eq_nil_of_length_eq_zero (Nat.le_zero.mp hs1)
    subst hsnil
    rw [reSubAllFuel_of_none 0 _ (splitFirst_nil_of_ne hst),
      reSubAllFuel_of_none f2 _ (splitFirst_nil_of_ne hst)]
  | succ f ih =>
    intro s f2 hs1 hs2
    cases h1 : splitFirst st s with
    | none => rw [reSubAllFuel_of_none _ _ h1, reSubAllFuel_of_none _ _ h1]
    | some pr =>
      obtain ⟨pre, rest⟩ := pr
      cases h2 : splitFirst en rest with
      | none => rw [reSubAllFuel_of_en_none _ h1 h2, reSubAllFuel_of_en_none _ h1 h2]
      | some pr2 =>
        obtain ⟨mid, post⟩ := pr2
        have hse : s = pre ++ st ++ rest := splitFirst_eq_append h1
        have hre : rest = mid ++ en ++ post := splitFirst_eq_append h2
        have hlt : post.length < s.length := by
          rw [hse, hre]
          cases st with
          | nil => exact absurd rfl hst
          | cons a b => simp; omega
        cases f2 with
        | zero => omega
        | succ f2' =>
          simp only [reSubAllFuel, h1, h2]
          rw [ih post f2' (by omega) (by omega)]

/-- `reSubAll` is the identity when the start marker does not occur. -/
theorem reSubAll_of_none {st en R s : List Char} (h : splitFirst st s = none) :
    reSubAll st en R s = s :=
  reSubAllFuel_of_none _ _ h

/-- `reSubAll` is the identity when no end marker follows the start marker. -/
theorem reSubAll_of_en_none {st en R s pre rest : List Char}
    (h1 : splitFirst st s = some (pre, rest)) (h2 : splitFirst en rest = none) :
    reSubAll st en R s = s :=
  reSubAllFuel_of_en_none _ h1 h2

/-- One substitution step of `reSubAll`: replace the leftmost match and
continue on the remainder after it. -/
theorem reSubAll_step {st en R s pre rest mid post : List Char} (hst : st ≠ [])
    (h1 : splitFirst st s = some (pre, rest))
    (h2 : splitFirst en rest = some (mid, post)) :
    reSubAll st en R s = pre ++ R ++ reSubAll st en R post := by
  have hse : s = pre ++ st ++ rest := splitFirst_eq_append h1
  have hre : rest = mid ++ en ++ post := splitFirst_eq_append h2
  have hlt : post.length < s.length := by
    rw [hse, hre]
    cases st with
    | nil => exact absurd rfl hst
    | cons a b => simp; omega
  obtain ⟨n, hn⟩ : ∃ n, s.length = n + 1 := ⟨s.length - 1, by omega⟩
  unfold reSubAll
  rw [hn]
  simp only [reSubAllFuel, h1, h2]
  rw [reSubAllFuel_fuel_irrel hst n post post.length (by omega) (Nat.le_refl _)]

/-- A file with exactly one marker pair (and no spurious occurrences): the
span from the start marker to the end marker is replaced by `R` and nothing
else changes. -/
theorem reSubAll_single_span {st en R : List Char} (hst : st ≠ [])
    {x a w : List Char} (hx : noEarlyOcc st x = true) (ha : noEarlyOcc en a = true)
    (hw : noOcc st w = true) :
    reSubAll st en R (x ++ st ++ a ++ en ++ w) = x ++ R ++ w := by
  have h1 : splitFirst st (x ++ st ++ a ++ en ++ w) = some (x, a ++ en ++ w) := by
    simpa [List.append_assoc] using
      @splitFirst_append_marker st x (a ++ en ++ w) hx
  have h2 : splitFirst en (a ++ en ++ w) = some (a, w) :=
    splitFirst_append_marker a w ha
  rw [reSubAll_step hst h1 h2, reSubAll_of_none (splitFirst_eq_none w hw)]

/-- A file with two marker pairs: **both** spans are replaced. -/
theorem reSubAll_two_spans {st en R : List Char} (hst : st ≠ [])
    {x a y b z : List Char} (hx : noEarlyOcc st x = true) (ha : noEarlyOcc en a = true)
    (hy : noEarlyOcc st y = true) (hb : noEarlyOcc en b = true) (hz : noOcc st z = true) :
    reSubAll st en R (x ++ st ++ a ++ en ++ y ++ st ++ b ++ en ++ z)
      = x ++ R ++ y ++ R ++ z := by
  have h1 : splitFirst st (x ++ st ++ a ++ en ++ y ++ st ++ b ++ en ++ z)
      = some (x, a ++ en ++ (y ++ st ++ b ++ en ++ z)) := by
    simpa [List.append_assoc] using
      @splitFirst_append_marker st x (a ++ en ++ (y ++ st ++ b ++ en ++ z)) hx
  have h2 : splitFirst en (a ++ en ++ (y ++ st ++ b ++ en ++ z))
      = some (a, y ++ st ++ b ++ en ++ z) := by
    simpa [List.append_assoc] using
      @splitFirst_append_marker en a (y ++ st ++ b ++ en ++ z) ha
  rw [reSubAll_step hst h1 h2, reSubAll_single_span hst hy hb hz]
  simp [List.append_assoc]

/-- A string that contains the pattern passes the containment check. -/
theorem containsSub_of_decomp {pat : List Char} (u v : List Char) :
    containsSub pat (u ++ pat ++ v) = true := by
  induction u with
  | nil => simp [containsSub, splitFirst_self_append]
  | cons c u' ih =>
    unfold containsSub at ih ⊢
    show (splitFirst pat (c :: ((u' ++ pat) ++ v))).isSome = true
    by_cases hp : pat.isPrefixOf (c :: ((u' ++ pat) ++ v)) = true
    · simp only [splitFirst]
      rw [hp]
      simp
    · have hp' : pat.isPrefixOf (c :: ((u' ++ pat) ++ v)) = false := by
        cases hx : pat.isPrefixOf (c :: ((u' ++ pat) ++ v)) with
        | false => rfl
        | true => exact absurd hx hp
      simp only [splitFirst, hp', Bool.false_eq_true, if_false]
      cases hrec : splitFirst pat ((u' ++ pat) ++ v) with
      | none =>
        rw [show (u' ++ pat) ++ v = u' ++ pat ++ v by simp] at hrec
        rw [hrec] at ih
        simp at ih
      | some pr =>
        obtain ⟨p1, p2⟩ := pr
        simp

/-! ## Lemmas about `update_sections` and `update_readme` -/

/-- The publications start marker is non-empty. -/
theorem pubStart_ne_nil : PUBLICATIONS_START_MARKER ≠ [] := by decide

/-- The software start marker is non-empty. -/
theorem softStart_ne_nil : SOFTWARE_START_MARKER ≠ [] := by decide

/-- A README with one well-placed publications span followed by one
well-placed software span: `update_sections` replaces exactly the two spans.
The `noEarlyOcc`/`noOcc` hypotheses say that the markers occur only at their
structural positions (in the sense relevant to the leftmost-match scan). -/
theorem update_sections_span (pc sc x a y b z : List Char)
    (hx : noEarlyOcc PUBLICATIONS_START_MARKER x = true)
    (ha : noEarlyOcc PUBLICATIONS_END_MARKER a = true)
    (h3 : noOcc PUBLICATIONS_START_MARKER
      (y ++ SOFTWARE_START_MARKER ++ b ++ SOFTWARE_END_MARKER ++ z) = true)
    (h4 : noEarlyOcc SOFTWARE_START_MARKER (x ++ pub_section pc ++ y) = true)
    (hb : noEarlyOcc SOFTWARE_END_MARKER b = true)
    (hz : noOcc SOFTWARE_START_MARKER z = true) :
    update_sections pc sc
      (x ++ PUBLICATIONS_START_MARKER ++ a ++ PUBLICATIONS_END_MARKER
        ++ y ++ SOFTWARE_START_MARKER ++ b ++ SOFTWARE_END_MARKER ++ z)
      = x ++ pub_section pc ++ y ++ soft_section sc ++ z := by
  unfold update_sections
  rw [show x ++ PUBLICATIONS_START_MARKER ++ a ++ PUBLICATIONS_END_MARKER
      ++ y ++ SOFTWARE_START_MARKER ++ b ++ SOFTWARE_END_MARKER ++ z
      = x ++ PUBLICATIONS_START_MARKER ++ a ++ PUBLICATIONS_END_MARKER
        ++ (y ++ SOFTWARE_START_MARKER ++ b ++ SOFTWARE_END_MARKER ++ z) by
    simp [List.append_assoc]]
  rw [show (markerSection PUBLICATIONS_START_MARKER PUBLICATIONS_END_MARKER pc)
      = pub_section pc from rfl]
  rw [reSubAll_single_span pubStart_ne_nil hx ha h3]
  rw [show x ++ pub_section pc
        ++ (y ++ SOFTWARE_START_MARKER ++ b ++ SOFTWARE_END_MARKER ++ z)
      = (x ++ pub_section pc ++ y) ++ SOFTWARE_START_MARKER ++ b
        ++ SOFTWARE_END_MARKER ++ z by simp [List.append_assoc]]
  rw [show (markerSection SOFTWARE_START_MARKER SOFTWARE_END_MARKER sc)
      = soft_section sc from rfl]
  rw [reSubAll_single_span softStart_ne_nil h4 hb hz]

/-- The result of a successful two-span splice still carries all four
markers. -/
theorem hasAllMarkers_result (pc sc x y z : List Char) :
    hasAllMarkers (x ++ pub_section pc ++ y ++ soft_section sc ++ z) = true := by
  simp only [hasAllMarkers, Bool.and_eq_true]
  refine ⟨⟨?_, ?_⟩, ?_, ?_⟩
  · rw [show x ++ pub_section pc ++ y ++ soft_section sc ++ z
        = x ++ PUBLICATIONS_START_MARKER
          ++ (('\n' :: pc ++ '\n' :: PUBLICATIONS_END_MARKER)
            ++ y ++ soft_section sc ++ z) by
      simp [pub_section, markerSection, List.append_assoc]]
    exact containsSub_of_decomp _ _
  · rw [show x ++ pub_section pc ++ y ++ soft_section sc ++ z
        = (x ++ PUBLICATIONS_START_MARKER ++ '\n' :: pc ++ ['\n'])
          ++ PUBLICATIONS_END_MARKER ++ (y ++ soft_section sc ++ z) by
      simp [pub_section, markerSection, List.append_assoc]]
    exact containsSub_of_decomp _ _
  · rw [show x ++ pub_section pc ++ y ++ soft_section sc ++ z
        = (x ++ pub_section pc ++ y) ++ SOFTWARE_START_MARKER
          ++ ('\n' :: sc ++ '\n' :: SOFTWARE_END_MARKER ++ z) by
      simp [soft_section, markerSection, List.append_assoc]]
    exact containsSub_of_decomp _ _
  · rw [show x ++ pub_section pc ++ y ++ soft_section sc ++ z
        = (x ++ pub_section pc ++ y ++ SOFTWARE_START_MARKER ++ '\n' :: sc ++ ['\n'])
          ++ SOFTWARE_END_MARKER ++ z by
      simp [soft_section, markerSection, List.append_assoc]]
    exact containsSub_of_decomp _ _

/-- `update_sections` maps an already-spliced README to itself. -/
theorem update_sections_idem_aux (pc sc x y z : List Char)
    (hx : noEarlyOcc PUBLICATIONS_START_MARKER x = true)
    (h7 : noEarlyOcc PUBLICATIONS_END_MARKER ('\n' :: (pc ++ ['\n'])) = true)
    (h8 : noOcc PUBLICATIONS_START_MARKER (y ++ soft_section sc ++ z) = true)
    (h4 : noEarlyOcc SOFTWARE_START_MARKER (x ++ pub_section pc ++ y) = true)
    (h9 : noEarlyOcc SOFTWARE_END_MARKER ('\n' :: (sc ++ ['\n'])) = true)
    (hz : noOcc SOFTWARE_START_MARKER z = true) :
    update_sections pc sc (x ++ pub_section pc ++ y ++ soft_section sc ++ z)
      = x ++ pub_section pc ++ y ++ soft_section sc ++ z := by
  have h8' : noOcc PUBLICATIONS_START_MARKER
      (y ++ SOFTWARE_START_MARKER ++ ('\n' :: (sc ++ ['\n']))
        ++ SOFTWARE_END_MARKER ++ z) = true := by
    rw [show y ++ SOFTWARE_START_MARKER ++ ('\n' :: (sc ++ ['\n']))
          ++ SOFTWARE_END_MARKER ++ z = y ++ soft_section sc ++ z by
      simp [soft_section, markerSection, List.append_assoc]]
    exact h8
  have hmain := update_sections_span pc sc x ('\n' :: (pc ++ ['\n'])) y
    ('\n' :: (sc ++ ['\n'])) z hx h7 h8' h4 h9 hz
  rw [show x ++ PUBLICATIONS_START_MARKER ++ ('\n' :: (pc ++ ['\n']))
        ++ PUBLICATIONS_END_MARKER ++ y ++ SOFTWARE_START_MARKER
        ++ ('\n' :: (sc ++ ['\n'])) ++ SOFTWARE_END_MARKER ++ z
      = x ++ pub_section pc ++ y ++ soft_section sc ++ z by
    simp [pub_section, soft_section, markerSection, List.append_assoc]] at hmain
  exact hmain

/-! ## Order lemmas for the deduplicator -/

/-- `yearBeats` is irreflexive: equal years never replace. -/
theorem yearBeats_irrefl (a : Option Int) : yearBeats a a = false := by
  cases a <;> simp [yearBeats]

/-- `yearBeats` is asymmetric. -/
theorem yearBeats_asymm {a b : Option Int} (h : yearBeats a b = true) :
    yearBeats b a = false := by
  cases a <;> cases b <;> simp_all [yearBeats] <;> omega

/-- Transitivity of the non-strict order underlying `yearBeats`. -/
theorem yearBeats_le_trans {a b c : Option Int} (h1 : yearBeats a b = false)
    (h2 : yearBeats b c = false) : yearBeats a c = false := by
  cases a <;> cases b <;> cases c <;> simp_all [yearBeats] <;> omega

/-- Antisymmetry of the non-strict order underlying `yearBeats`. -/
theorem yearBeats_antisymm {a b : Option Int} (h1 : yearBeats a b = false)
    (h2 : yearBeats b a = false) : a = b := by
  cases a <;> cases b <;> simp_all [yearBeats] <;> omega

/-- `yMax` dominates its left argument. -/
theorem yMax_ge_left (a b : Option Int) : yearBeats a (yMax a b) = false := by
  unfold yMax
  by_cases h : yearBeats b a = true
  · simp only [h, if_true]
    exact yearBeats_asymm h
  · simp only [Bool.not_eq_true] at h
    simp only [h, Bool.false_eq_true, if_false]
    exact yearBeats_irrefl a

/-- `yMax` dominates its right argument. -/
theorem yMax_ge_right (a b : Option Int) : yearBeats b (yMax a b) = false := by
  unfold yMax
  by_cases h : yearBeats b a = true
  · simp only [h, if_true]
    exact yearBeats_irrefl b
  · simp only [Bool.not_eq_true] at h
    simp only [h, Bool.false_eq_true, if_false]

/-- The folded maximum dominates its seed. -/
theorem yearsFoldMax_ge_seed (m0 : Option Int) (g : List WorkRec) :
    yearBeats m0 (yearsFoldMax m0 g) = false := by
  induction g generalizing m0 with
  | nil => exact yearBeats_irrefl m0
  | cons r g ih =>
    have hstep : yearsFoldMax m0 (r :: g) = yearsFoldMax (yMax m0 r.year) g := rfl
    rw [hstep]
    exact yearBeats_le_trans (yMax_ge_left m0 r.year) (ih (yMax m0 r.year))

/-- The fold winner of a group is the first record of the group whose year
equals the greatest year of the group. -/
theorem bestOf_eq_find_max (g : List WorkRec) :
    ∀ p : WorkRec,
      (p :: g).find? (fun r => r.year == yearsFoldMax p.year g) = some (bestOf p g) := by
  induction g with
  | nil =>
    intro p
    have hp : (p.year == yearsFoldMax p.year []) = true := by
      simp [yearsFoldMax]
    rw [@List.find?_cons_of_pos _ (fun r => r.year == yearsFoldMax p.year []) p [] hp]
    rfl
  | cons r g ih =>
    intro p
    have hM : yearsFoldMax p.year (r :: g) = yearsFoldMax (yMax p.year r.year) g := rfl
    by_cases hc : yearBeats r.year p.year = true
    · -- the newcomer strictly beats the seed
      have hm : yMax p.year r.year = r.year := by
        unfold yMax
        rw [hc]
        simp
      have hMr : yearsFoldMax p.year (r :: g) = yearsFoldMax r.year g := by rw [hM, hm]
      have hpy : (p.year == yearsFoldMax p.year (r :: g)) = false := by
        rw [hMr]
        rw [beq_eq_false_iff_ne]
        intro heq
        have hge := yearsFoldMax_ge_seed r.year g
        rw [← heq] at hge
        rw [hge] at hc
        cases hc
      rw [@List.find?_cons_of_neg _ (fun q => q.year == yearsFoldMax p.year (r :: g)) p
        (r :: g) (by simp [hpy])]
      have hpick : pickBetter p r = r := by
        unfold pickBetter
        rw [hc]
        simp
      have hbest : bestOf p (r :: g) = bestOf r g := by
        show bestOf (pickBetter p r) g = bestOf r g
        rw [hpick]
      rw [hbest]
      have hfun : (fun q : WorkRec => q.year == yearsFoldMax p.year (r :: g))
          = (fun q : WorkRec => q.year == yearsFoldMax r.year g) := by rw [hMr]
      rw [hfun]
      exact ih r
    · -- the seed survives
      have hcf : yearBeats r.year p.year = false := by
        cases hcc : yearBeats r.year p.year
        · rfl
        · exact absurd hcc hc
      have hm : yMax p.year r.year = p.year := by
        unfold yMax
        rw [hcf]
        simp
      have hMp : yearsFoldMax p.year (r :: g) = yearsFoldMax p.year g := by rw [hM, hm]
      have hpick : pickBetter p r = p := by
        unfold pickBetter
        rw [hcf]
        simp
      have hbest : bestOf p (r :: g) = bestOf p g := by
        show bestOf (pickBetter p r) g = bestOf p g
        rw [hpick]
      rw [hbest]
      have hfun : (fun q : WorkRec => q.year == yearsFoldMax p.year (r :: g))
          = (fun q : WorkRec => q.year == yearsFoldMax p.year g) := by rw [hMp]
      rw [hfun]
      by_cases hpq : (p.year == yearsFoldMax p.year g) = true
      · rw [@List.find?_cons_of_pos _ (fun q => q.year == yearsFoldMax p.year g) p
          (r :: g) hpq]
        have := ih p
        rw [@List.find?_cons_of_pos _ (fun q => q.year == yearsFoldMax p.year g) p g hpq]
          at this
        exact this
      · have hpq' : (p.year == yearsFoldMax p.year g) = false := by
          cases hcc : (p.year == yearsFoldMax p.year g)
          · rfl
          · exact absurd hcc hpq
        have hpneq : p.year ≠ yearsFoldMax p.year g := by
          rw [← beq_eq_false_iff_ne]
          exact hpq'
        have hr1 : (r.year == yearsFoldMax p.year g) = false := by
          rw [beq_eq_false_iff_ne]
          intro heq
          have hge := yearsFoldMax_ge_seed p.year g
          have h2 : yearBeats (yearsFoldMax p.year g) p.year = false := by
            rw [← heq]
            exact hcf
          exact hpneq (yearBeats_antisymm hge h2)
        rw [@List.find?_cons_of_neg _ (fun q => q.year == yearsFoldMax p.year g) p
          (r :: g) (by simp [hpq'])]
        rw [@List.find?_cons_of_neg _ (fun q => q.year == yearsFoldMax p.year g) r
          g (by simp [hr1])]
        have := ih p
        rw [@List.find?_cons_of_neg _ (fun q => q.year == yearsFoldMax p.year g) p
          g (by simp [hpq'])] at this
        exact this

/-- `mergeBest` from a present accumulator is the fold winner. -/
theorem mergeBest_some_eq (g : List WorkRec) :
    ∀ q : WorkRec, mergeBest (some q) g = some (bestOf q g) := by
  induction g with
  | nil => intro q; rfl
  | cons p g ih =>
    intro q
    show mergeBest (some (pickBetter q p)) g = some (bestOf q (p :: g))
    rw [ih (pickBetter q p)]
    rfl

/-- `mergeBest` from an empty accumulator computes the specification-side
selection `keepBest`. -/
theorem mergeBest_none_eq_keepBest (g : List WorkRec) :
    mergeBest none g = keepBest g := by
  cases g with
  | nil => rfl
  | cons r0 rest =>
    show mergeBest (some r0) rest = keepBest (r0 :: rest)
    rw [mergeBest_some_eq rest r0]
    rw [show keepBest (r0 :: rest)
        = (r0 :: rest).find? (fun r => r.year == yearsFoldMax r0.year rest) from rfl]
    exact (bestOf_eq_find_max rest r0).symm

/-- Effect of one `dedupInsert` on the first record found for title `t`. -/
theorem find?_dedupInsert (p : WorkRec) (t : String) :
    ∀ acc : List WorkRec,
      (dedupInsert p acc).find? (fun r => r.title == t)
        = if p.title = t then
            (match acc.find? (fun r => r.title == t) with
             | none => some p
             | some q => some (pickBetter q p))
          else acc.find? (fun r => r.title == t) := by
  intro acc
  induction acc with
  | nil =>
    show List.find? (fun r => r.title == t) [p] = _
    by_cases hpt : p.title = t
    · rw [if_pos hpt]
      rw [@List.find?_cons_of_pos _ (fun r => r.title == t) p [] (by simp [hpt])]
      rfl
    · rw [if_neg hpt]
      rw [@List.find?_cons_of_neg _ (fun r => r.title == t) p [] (by simp [hpt])]
  | cons q rest ih =>
    by_cases hqp : q.title = p.title
    · have hd : dedupInsert p (q :: rest) = pickBetter q p :: rest := by
        unfold dedupInsert
        rw [if_pos hqp]
        rfl
      have htitle : (pickBetter q p).title = p.title := by
        unfold pickBetter
        split
        · rfl
        · exact hqp
      rw [hd]
      by_cases hpt : p.title = t
      · have hq : (q.title == t) = true := by simp [hqp, hpt]
        have hpk : ((pickBetter q p).title == t) = true := by simp [htitle, hpt]
        rw [if_pos hpt]
        rw [@List.find?_cons_of_pos _ (fun r => r.title == t) (pickBetter q p) rest hpk]
        rw [@List.find?_cons_of_pos _ (fun r => r.title == t) q rest hq]
      · have hq : ¬ ((q.title == t) = true) := by
          simp only [beq_iff_eq, hqp]
          exact hpt
        have hpk : ¬ (((pickBetter q p).title == t) = true) := by
          simp only [beq_iff_eq, htitle]
          exact hpt
        rw [if_neg hpt]
        rw [@List.find?_cons_of_neg _ (fun r => r.title == t) (pickBetter q p) rest hpk]
        rw [@List.find?_cons_of_neg _ (fun r => r.title == t) q rest hq]
    · have hd : dedupInsert p (q :: rest) = q :: dedupInsert p rest := by
        simp only [dedupInsert]
        rw [if_neg hqp]
      rw [hd]
      by_cases hqt : q.title = t
      · have hpt : ¬ p.title = t := by
          intro h
          exact hqp (by rw [h, hqt])
        rw [if_neg hpt]
        rw [@List.find?_cons_of_pos _ (fun r => r.title == t) q (dedupInsert p rest)
          (by simp [hqt])]
        rw [@List.find?_cons_of_pos _ (fun r => r.title == t) q rest (by simp [hqt])]
      · rw [@List.find?_cons_of_neg _ (fun r => r.title == t) q (dedupInsert p rest)
          (by simp [hqt])]
        rw [@List.find?_cons_of_neg _ (fun r => r.title == t) q rest (by simp [hqt])]
        exact ih

/-- `mergeBest` with no more input returns the accumulator. -/
theorem mergeBest_nil (cur : Option WorkRec) : mergeBest cur [] = cur := by
  cases cur with
  | none => rfl
  | some q => rfl

/-- Folding the deduplication step accumulates, per title, exactly the
per-group winner of the filtered group. -/
theorem find?_foldl_dedup (t : String) (ht : t ≠ "") :
    ∀ (pubs acc : List WorkRec),
      (pubs.foldl (fun acc pub => if pub.title = "" then acc else dedupInsert pub acc)
          acc).find? (fun r => r.title == t)
        = mergeBest (acc.find? (fun r => r.title == t))
            (pubs.filter (fun p => p.title == t)) := by
  intro pubs
  induction pubs with
  | nil =>
    intro acc
    simp only [List.foldl_nil, List.filter_nil, mergeBest_nil]
  | cons p pubs ih =>
    intro acc
    rw [List.foldl_cons, List.filter_cons]
    by_cases hpe : p.title = ""
    · have hpt : (p.title == t) = false := by
        simp only [beq_eq_false_iff_ne, hpe]
        exact fun h => ht h.symm
      rw [if_pos hpe, hpt]
      simp only [Bool.false_eq_true, if_false]
      exact ih acc
    · rw [if_neg hpe]
      rw [ih (dedupInsert p acc)]
      rw [find?_dedupInsert p t acc]
      by_cases hpt : p.title = t
      · have hpt' : (p.title == t) = true := by simp [hpt]
        rw [hpt', if_pos hpt]
        simp only [if_true]
        cases hacc : acc.find? (fun r => r.title == t) with
        | none => rfl
        | some q => rfl
      · have hpt' : (p.title == t) = false := by
          simp only [beq_eq_false_iff_ne]
          exact hpt
        rw [hpt', if_neg hpt]
        simp only [Bool.false_eq_true, if_false]

/-- Per-title characterization of `filter_duplicate_publications`: the record
it keeps for a (non-empty) title is the specification-side `keepBest` of the
input records with that title. -/
theorem find?_filter_duplicate (pubs : List WorkRec) (t : String) (ht : t ≠ "") :
    (filter_duplicate_publications pubs).find? (fun r => r.title == t)
      = keepBest (pubs.filter (fun p => p.title == t)) := by
  unfold filter_duplicate_publications
  rw [find?_foldl_dedup t ht pubs []]
  rw [List.find?_nil]
  exact mergeBest_none_eq_keepBest _

/-- Membership in `dedupInsert`: a member either carries the inserted title
or was already present. -/
theorem mem_dedupInsert {p b : WorkRec} :
    ∀ {acc : List WorkRec}, b ∈ dedupInsert p acc → b.title = p.title ∨ b ∈ acc := by
  intro acc
  induction acc with
  | nil =>
    intro h
    left
    rw [List.mem_singleton.mp h]
  | cons q rest ih =>
    intro h
    by_cases hqp : q.title = p.title
    · rw [show dedupInsert p (q :: rest) = pickBetter q p :: rest from by
        unfold dedupInsert; rw [if_pos hqp]; rfl] at h
      rcases List.mem_cons.mp h with hb | hb
      · left
        rw [hb]
        unfold pickBetter
        split
        · rfl
        · exact hqp
      · right
        exact List.mem_cons_of_mem q hb
    · rw [show dedupInsert p (q :: rest) = q :: dedupInsert p rest from by
        simp only [dedupInsert]; rw [if_neg hqp]] at h
      rcases List.mem_cons.mp h with hb | hb
      · right
        rw [hb]
        exact List.mem_cons_self q rest
      · rcases ih hb with h1 | h1
        · left; exact h1
        · right; exact List.mem_cons_of_mem q h1

/-- `dedupInsert` preserves distinctness of titles. -/
theorem pairwise_dedupInsert (p : WorkRec) :
    ∀ {acc : List WorkRec}, acc.Pairwise (fun a b => a.title ≠ b.title) →
      (dedupInsert p acc).Pairwise (fun a b => a.title ≠ b.title) := by
  intro acc
  induction acc with
  | nil =>
    intro _
    simp [dedupInsert]
  | cons q rest ih =>
    intro hp
    rcases List.pairwise_cons.mp hp with ⟨hq, hrest⟩
    by_cases hqp : q.title = p.title
    · rw [show dedupInsert p (q :: rest) = pickBetter q p :: rest from by
        unfold dedupInsert; rw [if_pos hqp]; rfl]
      refine List.pairwise_cons.mpr ⟨?_, hrest⟩
      intro b hb
      have hti : (pickBetter q p).title = q.title := by
        unfold pickBetter
        split
        · exact hqp.symm
        · rfl
      rw [hti]
      exact hq b hb
    · rw [show dedupInsert p (q :: rest) = q :: dedupInsert p rest from by
        simp only [dedupInsert]; rw [if_neg hqp]]
      refine List.pairwise_cons.mpr ⟨?_, ih hrest⟩
      intro b hb
      rcases mem_dedupInsert hb with h1 | h1
      · rw [h1]
        exact fun hEq => hqp hEq
      · exact hq b h1

/-- The deduplicated list has pairwise distinct titles. -/
theorem pairwise_titles_filter_dup (pubs : List WorkRec) :
    (filter_duplicate_publications pubs).Pairwise (fun a b => a.title ≠ b.title) := by
  unfold filter_duplicate_publications
  have haux : ∀ (l acc : List WorkRec), acc.Pairwise (fun a b => a.title ≠ b.title) →
      (l.foldl (fun acc pub => if pub.title = "" then acc else dedupInsert pub acc)
        acc).Pairwise (fun a b => a.title ≠ b.title) := by
    intro l
    induction l with
    | nil => intro acc h; exact h
    | cons p l ih =>
      intro acc h
      rw [List.foldl_cons]
      by_cases hpe : p.title = ""
      · rw [if_pos hpe]
        exact ih acc h
      · rw [if_neg hpe]
        exact ih _ (pairwise_dedupInsert p h)
  exact haux pubs [] List.Pairwise.nil

/-! ## Lemmas about the sort -/

/-- Inserting is a permutation of consing. -/
theorem insertDescBy_perm (x : WorkRec) :
    ∀ l : List WorkRec, (insertDescBy x l).Perm (x :: l) := by
  intro l
  induction l with
  | nil => exact List.Perm.refl _
  | cons y ys ih =>
    by_cases h : effYear x ≤ effYear y
    · rw [show insertDescBy x (y :: ys) = y :: insertDescBy x ys from by
        simp only [insertDescBy]; rw [if_pos h]]
      exact (ih.cons y).trans (List.Perm.swap x y ys)
    · rw [show insertDescBy x (y :: ys) = x :: y :: ys from by
        simp only [insertDescBy]; rw [if_neg h]]

/-- The fold of insertions permutes the input (plus the accumulator). -/
theorem sortByYearDesc_perm_aux :
    ∀ (l acc : List WorkRec),
      (l.foldl (fun acc x => insertDescBy x acc) acc).Perm (l ++ acc) := by
  intro l
  induction l with
  | nil => intro acc; simp
  | cons x xs ih =>
    intro acc
    rw [List.foldl_cons]
    have h1 := ih (insertDescBy x acc)
    have h2 : (xs ++ insertDescBy x acc).Perm (xs ++ (x :: acc)) :=
      List.Perm.append_left xs (insertDescBy_perm x acc)
    have h3 : (xs ++ x :: acc).Perm (x :: (xs ++ acc)) := List.perm_middle
    exact ((h1.trans h2).trans h3)

/-- The sort is a permutation of its input. -/
theorem sortByYearDesc_perm (l : List WorkRec) : (sortByYearDesc l).Perm l := by
  have h := sortByYearDesc_perm_aux l []
  simpa [sortByYearDesc] using h

/-- Inserting preserves the descending-by-effective-year invariant. -/
theorem insertDescBy_pairwise (x : WorkRec) :
    ∀ {l : List WorkRec}, l.Pairwise (fun a b => effYear b ≤ effYear a) →
      (insertDescBy x l).Pairwise (fun a b => effYear b ≤ effYear a) := by
  intro l
  induction l with
  | nil =>
    intro _
    simp [insertDescBy]
  | cons y ys ih =>
    intro hp
    rcases List.pairwise_cons.mp hp with ⟨hy, hys⟩
    by_cases h : effYear x ≤ effYear y
    · rw [show insertDescBy x (y :: ys) = y :: insertDescBy x ys from by
        simp only [insertDescBy]; rw [if_pos h]]
      refine List.pairwise_cons.mpr ⟨?_, ih hys⟩
      intro b hb
      have hmem : b = x ∨ b ∈ ys := by
        have hmm := (insertDescBy_perm x ys).mem_iff.mp hb
        simpa using hmm
      rcases hmem with rfl | hmem
      · exact h
      · exact hy b hmem
    · have hle : effYear y ≤ effYear x := le_of_not_le h
      rw [show insertDescBy x (y :: ys) = x :: y :: ys from by
        simp only [insertDescBy]; rw [if_neg h]]
      refine List.pairwise_cons.mpr ⟨?_, hp⟩
      intro b hb
      rcases List.mem_cons.mp hb with rfl | hmem
      · exact hle
      · exact le_trans (hy b hmem) hle

/-- The sort output is descending in the effective year. -/
theorem sortByYearDesc_sorted (l : List WorkRec) :
    (sortByYearDesc l).Pairwise (fun a b => effYear b ≤ effYear a) := by
  have haux : ∀ (m acc : List WorkRec),
      acc.Pairwise (fun a b => effYear b ≤ effYear a) →
      (m.foldl (fun acc x => insertDescBy x acc) acc).Pairwise
        (fun a b => effYear b ≤ effYear a) := by
    intro m
    induction m with
    | nil => intro acc h; exact h
    | cons x xs ih =>
      intro acc h
      rw [List.foldl_cons]
      exact ih _ (insertDescBy_pairwise x h)
  exact haux l [] List.Pairwise.nil

/-- Stability of insertion into a sorted accumulator: the newcomer lands
after every element sharing its effective key, so the equal-key class gains
the newcomer at its end and every other class is untouched. -/
theorem filter_insertDescBy_eq (x : WorkRec) (k : Int) :
    ∀ {l : List WorkRec}, l.Pairwise (fun a b => effYear b ≤ effYear a) →
      (insertDescBy x l).filter (fun r => effYear r == k)
        = if effYear x == k then l.filter (fun r => effYear r == k) ++ [x]
          else l.filter (fun r => effYear r == k) := by
  intro l
  induction l with
  | nil =>
    intro _
    by_cases hk : (effYear x == k) = true
    · rw [if_pos hk]
      simp [insertDescBy, List.filter_cons, hk]
    · rw [if_neg hk]
      simp only [insertDescBy, List.filter_cons]
      simp [hk]
  | cons y ys ih =>
    intro hp
    rcases List.pairwise_cons.mp hp with ⟨hy, hys⟩
    by_cases h : effYear x ≤ effYear y
    · rw [show insertDescBy x (y :: ys) = y :: insertDescBy x ys from by
        simp only [insertDescBy]; rw [if_pos h]]
      rw [List.filter_cons, List.filter_cons]
      rw [ih hys]
      by_cases hk : (effYear x == k) = true
      · rw [if_pos hk, if_pos hk]
        by_cases hyk : (effYear y == k) = true
        · rw [if_pos hyk, if_pos hyk]
          rfl
        · rw [if_neg hyk, if_neg hyk]
      · rw [if_neg hk, if_neg hk]
    · have hlt : effYear y < effYear x := lt_of_not_le h
      rw [show insertDescBy x (y :: ys) = x :: y :: ys from by
        simp only [insertDescBy]; rw [if_neg h]]
      by_cases hk : (effYear x == k) = true
      · have hkx : effYear x = k := by
          have := hk
          rwa [beq_iff_eq] at this
        have hnone : (y :: ys).filter (fun r => effYear r == k) = [] := by
          rw [List.filter_eq_nil_iff]
          intro b hb
          have hble : effYear b ≤ effYear y := by
            rcases List.mem_cons.mp hb with rfl | hbm
            · exact le_refl _
            · exact hy b hbm
          simp only [beq_iff_eq]
          intro heq
          rw [heq, ← hkx] at hble
          omega
        rw [if_pos hk, hnone]
        rw [List.filter_cons]
        rw [if_pos hk, hnone]
        rfl
      · rw [if_neg hk]
        rw [List.filter_cons]
        rw [if_neg hk]

/-- Stability of the fold: per effective key, the output class is the
accumulator's class followed by the input's class in input order. -/
theorem filter_foldl_insert (k : Int) :
    ∀ (l acc : List WorkRec), acc.Pairwise (fun a b => effYear b ≤ effYear a) →
      (l.foldl (fun acc x => insertDescBy x acc) acc).filter (fun r => effYear r == k)
        = acc.filter (fun r => effYear r == k) ++ l.filter (fun r => effYear r == k) := by
  intro l
  induction l with
  | nil =>
    intro acc _
    simp
  | cons x xs ih =>
    intro acc hs
    rw [List.foldl_cons]
    rw [ih (insertDescBy x acc) (insertDescBy_pairwise x hs)]
    rw [filter_insertDescBy_eq x k hs]
    rw [List.filter_cons]
    by_cases hk : (effYear x == k) = true
    · rw [if_pos hk, if_pos hk]
      simp
    · rw [if_neg hk, if_neg hk]

/-- The sort is stable: for every value of the effective sort key, the
records carrying that key appear in the output exactly in their input order
(the filtered sublist is preserved verbatim). -/
theorem sortByYearDesc_stable (l : List WorkRec) (k : Int) :
    (sortByYearDesc l).filter (fun r => effYear r == k)
      = l.filter (fun r => effYear r == k) := by
  unfold sortByYearDesc
  rw [filter_foldl_insert k l [] List.Pairwise.nil]
  simp

/-! ## Inversion of the extractor -/

/-- Shape of a successful extraction: the work passed every check and the
record is exactly the dictionary built at the end of
`extract_publication_info`. -/
theorem extract_some_shape {w : Work} {r : WorkRec}
    (h : extract_publication_info w = some r) :
    ∃ t tobj vobj, w.workType = some t ∧ w.title = some tobj ∧ tobj.title = some vobj ∧
      t ≠ "" ∧ pyLower t ∈ ACCEPTED_TYPES ∧ pyStrip (vobj.value.getD "") ≠ "" ∧
      r = { title := pyStrip (vobj.value.getD ""), year := parseYear w.pubDate,
            doi := scanDoi none w.externalIds, workType := t } := by
  simp only [extract_publication_info] at h
  split at h
  · exact Option.noConfusion h
  · rename_i t hw
    split at h
    · exact Option.noConfusion h
    · rename_i ht1
      split at h
      · exact Option.noConfusion h
      · rename_i ht2
        split at h
        · exact Option.noConfusion h
        · rename_i tobj htitle
          split at h
          · exact Option.noConfusion h
          · rename_i vobj hvobj
            split at h
            · exact Option.noConfusion h
            · rename_i hstr
              injection h with hr
              exact ⟨t, tobj, vobj, hw, htitle, hvobj, ht1, by simpa using ht2, hstr,
                hr.symm⟩

/-! ## Claim theorems -/

/-- C1 counterexample: with a target file that lacks the sentinel markers the
run performs no write, but the process exits with code 0 (so the claimed
non-zero exit is false at this input). -/
theorem C1_counterexample :
    mainRun (Except.ok { group := [] }) (some "A plain file without markers.".data)
      = (0, some ReadmeResult.missingMarkers) ∧
    ReadmeResult.missingMarkers.wrote = false ∧
    ¬ ((mainRun (Except.ok { group := [] })
        (some "A plain file without markers.".data)).1 ≠ 0) := by
  refine ⟨by decide, rfl, ?_⟩
  intro hne
  exact hne (by decide)

/-- C1 (amended): for every works payload and every target file lacking a
required sentinel marker pair (partial presence counting as absent), the run
performs no write to the file, `update_readme` returns `False`, and the
process exits with code 0 reporting "no changes needed". -/
theorem missing_markers_no_write_exit_zero (wd : WorksData) (content : List Char)
    (h : hasAllMarkers content = false) :
    mainRun (Except.ok wd) (some content) = (0, some ReadmeResult.missingMarkers) ∧
    ReadmeResult.missingMarkers.wrote = false ∧
    ReadmeResult.missingMarkers.toBool = false := by
  have hu : ∀ a b : List Char, update_readme a b (some content)
      = ReadmeResult.missingMarkers := by
    intro a b
    simp only [update_readme]
    rw [if_pos]
    simp [h]
  refine ⟨?_, rfl, rfl⟩
  show (0, some (update_readme _ _ (some content))) = _
  rw [hu]

/-- C1 witness: the amended statement holds at a concrete marker-free file. -/
theorem C1_witness :
    hasAllMarkers "just text".data = false ∧
    mainRun (Except.ok { group := [] }) (some "just text".data)
      = (0, some ReadmeResult.missingMarkers) :=
  ⟨by decide,
    (missing_markers_no_write_exit_zero { group := [] } "just text".data (by decide)).1⟩

/-- C10: a missing target file makes `update_readme` return `False` without
raising, and the process exits 0 (reported as "no changes needed"): a missing
README is treated as a successful run, not a fatal error. -/
theorem missing_file_reports_success (wd : WorksData) :
    mainRun (Except.ok wd) none = (0, some ReadmeResult.missingFile) ∧
    ReadmeResult.missingFile.toBool = false ∧
    ReadmeResult.missingFile.wrote = false := by
  exact ⟨rfl, rfl, rfl⟩

/-- C2 counterexample: a work accepted through the case-insensitive type
check but stored with its original casing lands in neither category group. -/
theorem C2_counterexample :
    extract_publication_info exWorkCased
      = some { title := "Cased", year := none, doi := none,
               workType := "Journal-Article" } ∧
    isPublicationType { title := "Cased", year := none, doi := none,
                        workType := "Journal-Article" } = false ∧
    isSoftwareType { title := "Cased", year := none, doi := none,
                     workType := "Journal-Article" } = false := by
  decide

/-- C2 (amended): every record accepted by the extractor belongs to at most
one of the two groups (they are disjoint); when its stored type string equals
its own lowercasing it belongs to exactly one group. -/
theorem extract_partition (w : Work) (r : WorkRec)
    (h : extract_publication_info w = some r) :
    ¬ (isPublicationType r = true ∧ isSoftwareType r = true) ∧
    (pyLower r.workType = r.workType →
      (isPublicationType r = true ∨ isSoftwareType r = true)) := by
  obtain ⟨t, tobj, vobj, hw, ht, hv, ht1, hacc, hstr, hr⟩ := extract_some_shape h
  have hty : r.workType = t := by rw [hr]
  constructor
  · rintro ⟨hp, hs⟩
    have hp' : r.workType ∈ PUBLICATION_TYPES := of_decide_eq_true hp
    have hs' : r.workType ∈ SOFTWARE_TYPES := of_decide_eq_true hs
    simp only [PUBLICATION_TYPES, SOFTWARE_TYPES, List.mem_cons, List.mem_singleton,
      List.not_mem_nil, or_false] at hp' hs'
    rcases hp' with h1 | h1 <;> rcases hs' with h2 | h2 <;> rw [h1] at h2 <;>
      exact absurd h2 (by decide)
  · intro hlow
    have hmem : r.workType ∈ ACCEPTED_TYPES := by
      rw [← hlow, hty]
      exact hacc
    rw [ACCEPTED_TYPES] at hmem
    rcases List.mem_append.mp hmem with h1 | h1
    · left
      exact decide_eq_true h1
    · right
      exact decide_eq_true h1

/-- C2 witness: the amended statement holds at a lowercase-typed work. -/
theorem C2_witness :
    ¬ (isPublicationType exRecLower = true ∧ isSoftwareType exRecLower = true) ∧
    (pyLower exRecLower.workType = exRecLower.workType →
      (isPublicationType exRecLower = true ∨ isSoftwareType exRecLower = true)) :=
  extract_partition exWorkLower exRecLower (by decide)

/-- C9 counterexample: a year string of "99999" is accepted and stored as the
integer 99999, which is not a 4-digit integer, so the claimed 1000–9999 bound
is false on the code. -/
theorem C9_counterexample :
    extract_publication_info exWork99999
      = some { title := "Big", year := some 99999, doi := none,
               workType := "journal-article" } ∧
    ¬ ((1000 : Int) ≤ 99999 ∧ (99999 : Int) ≤ 9999) := by
  constructor
  · decide
  · intro hc
    omega

/-- C9 (amended): when the type and title checks pass, the extractor always
returns a record; its year is exactly the best-effort `int()` parse of the
year value (any sign and magnitude), and a failed parse yields a record with
a missing year rather than a rejection. -/
theorem extract_year_best_effort (w : Work) (t : String) (tobj : TitleObj) (vobj : ValueObj)
    (hw : w.workType = some t) (h1 : t ≠ "") (h2 : pyLower t ∈ ACCEPTED_TYPES)
    (ht : w.title = some tobj) (hv : tobj.title = some vobj)
    (hs : pyStrip (vobj.value.getD "") ≠ "") :
    extract_publication_info w
      = some { title := pyStrip (vobj.value.getD ""), year := parseYear w.pubDate,
               doi := scanDoi none w.externalIds, workType := t } := by
  simp only [extract_publication_info, hw, ht, hv]
  rw [if_neg h1, if_neg (not_not_intro h2), if_neg hs]

/-- C9 witness: a work whose year string "20xx" fails to parse still yields a
record, with a missing year. -/
theorem C9_witness :
    extract_publication_info exWorkBadYear
      = some { title := "Odd", year := none, doi := none,
               workType := "journal-article" } := by
  have h := extract_year_best_effort exWorkBadYear "journal-article"
    { title := some { value := some "Odd" } } { value := some "Odd" }
    rfl (by decide) (by decide) rfl rfl (by decide)
  rw [h]
  decide

/-- C4: the deduplicator outputs pairwise-distinct titles, and for every
non-empty title the record it keeps is the first input record of that title
group whose year equals the group's greatest year (missing years counting as
lower than any present year, ties keeping the first-seen record). -/
theorem filter_dup_keeps_first_max (pubs : List WorkRec) :
    (filter_duplicate_publications pubs).Pairwise (fun a b => a.title ≠ b.title) ∧
    ∀ t : String, t ≠ "" →
      (filter_duplicate_publications pubs).find? (fun r => r.title == t)
        = keepBest (pubs.filter (fun p => p.title == t)) :=
  ⟨pairwise_titles_filter_dup pubs, fun t ht => find?_filter_duplicate pubs t ht⟩

/-- C4 witness: with one "Dup" record dated 2020 and one with no year, the
2020 record is kept in both input orders. -/
theorem C4_witness :
    (filter_duplicate_publications [recDup2020, recDupNone]).find?
        (fun r => r.title == "Dup") = some recDup2020 ∧
    (filter_duplicate_publications [recDupNone, recDup2020]).find?
        (fun r => r.title == "Dup") = some recDup2020 := by
  have h1 := (filter_dup_keeps_first_max [recDup2020, recDupNone]).2 "Dup" (by decide)
  have h2 := (filter_dup_keeps_first_max [recDupNone, recDup2020]).2 "Dup" (by decide)
  rw [h1, h2]
  constructor
  · decide
  · decide

/-- C5 counterexample: with a record dated −1 and a record with no year, the
sort places the missing-year record (effective key 0) before the dated one,
so a dated record follows a missing-year record. -/
theorem C5_counterexample :
    sortByYearDesc [recNeg, recNoYr] = [recNoYr, recNeg] ∧
    recNoYr.year = none ∧ recNeg.year = some (-1) ∧
    ¬ (sortByYearDesc [recNeg, recNoYr]).Pairwise
        (fun a b => a.year = none → b.year = none) := by
  refine ⟨by decide, rfl, rfl, ?_⟩
  intro hp
  rw [show sortByYearDesc [recNeg, recNoYr] = [recNoYr, recNeg] from by decide] at hp
  rcases List.pairwise_cons.mp hp with ⟨hhead, _⟩
  have := hhead recNeg (by simp) rfl
  exact Option.noConfusion this

/-- C5 (amended): the sort permutes its input, orders it weakly descending
by the effective key `year or 0`, and is stable: for every key value the
records with that effective key appear in the output exactly in their input
order (the filtered sublist is preserved verbatim). Consequently a
missing-year record precedes only records whose effective key is at most 0,
i.e. every record after a missing-year record has no year or a non-positive
year. -/
theorem sort_desc_by_effective_year (l : List WorkRec) :
    (sortByYearDesc l).Perm l ∧
    (sortByYearDesc l).Pairwise (fun a b => effYear b ≤ effYear a) ∧
    (∀ k : Int, (sortByYearDesc l).filter (fun r => effYear r == k)
      = l.filter (fun r => effYear r == k)) ∧
    (sortByYearDesc l).Pairwise
      (fun a b => a.year = none → ∀ v : Int, b.year = some v → v ≤ 0) := by
  refine ⟨sortByYearDesc_perm l, sortByYearDesc_sorted l,
    fun k => sortByYearDesc_stable l k, ?_⟩
  refine (sortByYearDesc_sorted l).imp ?_
  intro a b hle hna v hbv
  have ha : effYear a = 0 := by simp [effYear, hna]
  have hb : effYear b = if v = 0 then 0 else v := by simp [effYear, hbv]
  rw [ha, hb] at hle
  by_cases hv : v = 0
  · omega
  · rw [if_neg hv] at hle
    exact hle

/-- C6: the list line produced for the 2021 "Foo" record uses the literal
three-character sequence U+201A U+00C4 U+00EC as separator (a double-encoded
en dash), not an en dash, and a record with a missing year renders its year
slot as "None", not "N/A". -/
theorem format_publication_divergences :
    format_publication { title := "Foo", year := some 2021, doi := some "10.1/abc",
                         workType := "journal-article" }
      = "- **2021** " ++ FORMAT_SEPARATOR ++ " [Foo](https://doi.org/10.1/abc)" ∧
    format_publication { title := "Foo", year := some 2021, doi := some "10.1/abc",
                         workType := "journal-article" }
      ≠ "- **2021** – [Foo](https://doi.org/10.1/abc)" ∧
    format_publication { title := "Bar", year := none, doi := none,
                         workType := "journal-article" }
      = "- **None** " ++ FORMAT_SEPARATOR ++ " Bar" := by
  refine ⟨by decide, ?_, by decide⟩
  intro h
  exact absurd h (by decide)

/-- C3 counterexample: with markers "[" and "]" and new content "X", the file
"[a]b[c]" has both marker spans replaced, not only the first; the claimed
output that leaves the second span unchanged is wrong. -/
theorem C3_counterexample :
    reSubAll "[".data "]".data (markerSection "[".data "]".data "X".data) "[a]b[c]".data
      = "[\nX\n]b[\nX\n]".data ∧
    "[\nX\n]b[\nX\n]".data ≠ "[\nX\n]b[c]".data := by
  refine ⟨by decide, ?_⟩
  intro h
  exact absurd h (by decide)

/-- C3 (amended): the splicer replaces, scanning left to right, every
non-overlapping span from a start marker to the next end marker with
`start + newline + content + newline + end`; in particular, in a file with
two marker pairs both spans are replaced. -/
theorem reSubAll_replaces_every_span (st en c x a y b z : List Char) (hst : st ≠ [])
    (hx : noEarlyOcc st x = true) (ha : noEarlyOcc en a = true)
    (hy : noEarlyOcc st y = true) (hb : noEarlyOcc en b = true)
    (hz : noOcc st z = true) :
    reSubAll st en (markerSection st en c)
        (x ++ st ++ a ++ en ++ y ++ st ++ b ++ en ++ z)
      = x ++ markerSection st en c ++ y ++ markerSection st en c ++ z := by
  rw [reSubAll_two_spans hst hx ha hy hb hz]

/-- C3 witness: the amended statement holds at concrete markers and texts. -/
theorem C3_witness :
    reSubAll "[".data "]".data (markerSection "[".data "]".data "NEW".data)
        ("pre".data ++ "[".data ++ "old1".data ++ "]".data ++ "mid".data
          ++ "[".data ++ "old2".data ++ "]".data ++ "post".data)
      = "pre".data ++ markerSection "[".data "]".data "NEW".data ++ "mid".data
          ++ markerSection "[".data "]".data "NEW".data ++ "post".data :=
  reSubAll_replaces_every_span "[".data "]".data "NEW".data "pre".data "old1".data
    "mid".data "old2".data "post".data (by decide) (by decide) (by decide) (by decide)
    (by decide) (by decide)

/-- C7: on a README with one publications span and one software span (the
occurrence hypotheses say the markers appear only at their structural
positions and not inside the generated bodies), splicing a second time with
the same contents returns the first run's output unchanged, and
`update_readme` on that output reports "no change" without writing. -/
theorem splice_idempotent (pc sc x a y b z : List Char)
    (hx : noEarlyOcc PUBLICATIONS_START_MARKER x = true)
    (ha : noEarlyOcc PUBLICATIONS_END_MARKER a = true)
    (h3 : noOcc PUBLICATIONS_START_MARKER
      (y ++ SOFTWARE_START_MARKER ++ b ++ SOFTWARE_END_MARKER ++ z) = true)
    (h4 : noEarlyOcc SOFTWARE_START_MARKER (x ++ pub_section pc ++ y) = true)
    (hb : noEarlyOcc SOFTWARE_END_MARKER b = true)
    (hz : noOcc SOFTWARE_START_MARKER z = true)
    (h7 : noEarlyOcc PUBLICATIONS_END_MARKER ('\n' :: (pc ++ ['\n'])) = true)
    (h8 : noOcc PUBLICATIONS_START_MARKER (y ++ soft_section sc ++ z) = true)
    (h9 : noEarlyOcc SOFTWARE_END_MARKER ('\n' :: (sc ++ ['\n'])) = true) :
    update_sections pc sc (update_sections pc sc
        (x ++ PUBLICATIONS_START_MARKER ++ a ++ PUBLICATIONS_END_MARKER
          ++ y ++ SOFTWARE_START_MARKER ++ b ++ SOFTWARE_END_MARKER ++ z))
      = update_sections pc sc
          (x ++ PUBLICATIONS_START_MARKER ++ a ++ PUBLICATIONS_END_MARKER
            ++ y ++ SOFTWARE_START_MARKER ++ b ++ SOFTWARE_END_MARKER ++ z) ∧
    update_readme pc sc (some (update_sections pc sc
        (x ++ PUBLICATIONS_START_MARKER ++ a ++ PUBLICATIONS_END_MARKER
          ++ y ++ SOFTWARE_START_MARKER ++ b ++ SOFTWARE_END_MARKER ++ z)))
      = ReadmeResult.unchanged := by
  have hT := update_sections_span pc sc x a y b z hx ha h3 h4 hb hz
  have hidem := update_sections_idem_aux pc sc x y z hx h7 h8 h4 h9 hz
  constructor
  · rw [hT]
    exact hidem
  · rw [hT]
    simp only [update_readme]
    rw [if_neg (not_not_intro (hasAllMarkers_result pc sc x y z))]
    rw [if_pos hidem]

/-- C7 witness: the idempotence conclusion at a concrete README. -/
theorem C7_witness :
    update_readme ex7pc ex7sc (some (update_sections ex7pc ex7sc ex7content))
      = ReadmeResult.unchanged :=
  (splice_idempotent ex7pc ex7sc ex7x ex7a ex7y ex7b ex7z (by decide) (by decide)
    (by decide) (by decide) (by decide) (by decide) (by decide) (by decide)
    (by decide)).2

/-- C8: on a file containing all required markers, `update_readme` writes
only when the spliced text differs from the original content; when they are
equal it reports "no change" (and hence performs no write), and any written
text is exactly the spliced text, necessarily different from the original. -/
theorem update_readme_writes_only_on_change (pc sc content : List Char)
    (h : hasAllMarkers content = true) :
    (update_sections pc sc content = content →
      update_readme pc sc (some content) = ReadmeResult.unchanged) ∧
    (update_sections pc sc content ≠ content →
      update_readme pc sc (some content)
        = ReadmeResult.written (update_sections pc sc content)) ∧
    ∀ t : List Char, update_readme pc sc (some content) = ReadmeResult.written t →
      t = update_sections pc sc content ∧ t ≠ content := by
  have hu : update_readme pc sc (some content)
      = if update_sections pc sc content = content then ReadmeResult.unchanged
        else ReadmeResult.written (update_sections pc sc content) := by
    simp only [update_readme]
    rw [if_neg (not_not_intro h)]
  refine ⟨?_, ?_, ?_⟩
  · intro heq
    rw [hu, if_pos heq]
  · intro hne
    rw [hu, if_neg hne]
  · intro t ht
    rw [hu] at ht
    by_cases heq : update_sections pc sc content = content
    · rw [if_pos heq] at ht
      exact absurd ht (by intro hcon; cases hcon)
    · rw [if_neg heq] at ht
      injection ht with ht1
      constructor
      · exact ht1.symm
      · rw [← ht1]
        exact heq

set_option maxRecDepth 40000 in
/-- C8 witness: a README that already equals its spliced form is reported as
unchanged and not written. -/
theorem C8_witness :
    hasAllMarkers ex8content = true ∧
    update_sections ex8pc ex8sc ex8content = ex8content ∧
    update_readme ex8pc ex8sc (some ex8content) = ReadmeResult.unchanged :=
  ⟨by decide, by decide,
    (update_readme_writes_only_on_change ex8pc ex8sc ex8content (by decide)).1
      (by decide)⟩
